import Mathlib

/-!
# SOPS operator: the SopsSecret reconciler

A shallow embedding of `pkg/controller/sopssecret/sopssecret_controller.go` and of the
types of `pkg/apis/craftypath/v1alpha1/sopssecret_types.go`, followed by theorems about
the mutate step (ownership guard and `update`), the status ledger and the retry delay.

Conventions of the embedding:

* a Go `map[string]T` is an association list with `m[k]` as `GoMap.get` and `m[k] = v` as
  `GoMap.set`; a `range` loop visits the entries in the order of the list, so a statement
  about every list is a statement about every visiting order;
* a `time.Time` is the number of nanoseconds since Go's zero time (January 1, year 1 UTC),
  a `time.Duration` is a number of nanoseconds, and `int64` arithmetic is made explicit
  with `wrapInt64`;
* a pointer receiver that is mutated and an `error` that is returned become a result record
  holding the object after the call and an `Option String` (the error message, `none` for
  `nil`);
* calls of the `Decryptor` are logged in the result, so that "was not invoked" can be stated.
-/

namespace SopsOperator

/-! ## Go maps -/

/-- A Go map with string keys, as the list of its entries. -/
abbrev GoMap (β : Type) := List (String × β)

namespace GoMap

/-- The lookup `m[k]`. -/
def get {β : Type} : GoMap β → String → Option β
  | [], _ => none
  | (k', v) :: rest, k => if k' = k then some v else get rest k

/-- The assignment `m[k] = v`: overwrite the entry of `k`, or add one. -/
def set {β : Type} : GoMap β → String → β → GoMap β
  | [], k, v => [(k, v)]
  | (k', v') :: rest, k, v => if k' = k then (k, v) :: rest else (k', v') :: set rest k v

/-- The keys of the map. -/
def keys {β : Type} (m : GoMap β) : List String := m.map Prod.fst

/-- Map equality as `equality.Semantic.DeepEqual` sees it: the same keys with the same
values, whatever the order of the entries, and with no difference between a nil and an
empty map. -/
def semanticEq {β : Type} [DecidableEq β] (a b : GoMap β) : Bool :=
  (keys a).all (fun k => decide (get a k = get b k)) &&
    (keys b).all (fun k => decide (get a k = get b k))

end GoMap

/-! ## `encoding/base64`, `StdEncoding` -/

/-- The alphabet of `base64.StdEncoding`. -/
def encodeStd : List Char :=
  "ABCDEFGHIJKLMNOPQRSTUVWXYZabcdefghijklmnopqrstuvwxyz0123456789+/".toList

/-- The byte `enc.encode[i]`. -/
def encodeByte (i : Nat) : UInt8 := UInt8.ofNat ((encodeStd.getD i 'A').toNat)

/-- The padding character `=` of `StdEncoding`. -/
def padChar : UInt8 := 61

/-- The function `EncodedLen` of a padded encoding: `(n + 2) / 3 * 4`. -/
def EncodedLen (n : Nat) : Nat := (n + 2) / 3 * 4

/-- The function `Encode` of `base64.StdEncoding`: full groups of three bytes give four
characters, a rest of one or two bytes gives two or three characters and padding. -/
def stdEncode : List UInt8 → List UInt8
  | [] => []
  | [a] =>
    let val := a.toNat <<< 16
    [encodeByte (val >>> 18 &&& 0x3F), encodeByte (val >>> 12 &&& 0x3F), padChar, padChar]
  | [a, b] =>
    let val := a.toNat <<< 16 ||| b.toNat <<< 8
    [encodeByte (val >>> 18 &&& 0x3F), encodeByte (val >>> 12 &&& 0x3F),
      encodeByte (val >>> 6 &&& 0x3F), padChar]
  | a :: b :: c :: rest =>
    let val := a.toNat <<< 16 ||| b.toNat <<< 8 ||| c.toNat
    encodeByte (val >>> 18 &&& 0x3F) :: encodeByte (val >>> 12 &&& 0x3F) ::
      encodeByte (val >>> 6 &&& 0x3F) :: encodeByte (val &&& 0x3F) :: stdEncode rest

/-- The bytes of an ASCII string. -/
def asciiBytes (s : String) : List UInt8 := s.toList.map (fun c => UInt8.ofNat c.toNat)

/-! ## The data model -/

/-- A `schema.GroupVersion`, the parsed form of an `apiVersion` string. -/
structure GroupVersion where
  Group : String
  Version : String
  deriving DecidableEq

/-- A `schema.GroupVersionKind`. -/
structure GroupVersionKind where
  Group : String
  Version : String
  Kind : String
  deriving DecidableEq

/-- A `metav1.OwnerReference`; `APIVersion` is kept in parsed form, the form in which
`referSameObject` compares it. -/
structure OwnerReference where
  APIVersion : GroupVersion
  Kind : String
  Name : String
  UID : String
  Controller : Option Bool
  BlockOwnerDeletion : Option Bool
  deriving DecidableEq

/-- The fields of a `corev1.Secret` that the controller reads or writes. -/
structure Secret where
  Name : String
  Namespace : String
  CreationTimestamp : Int
  Labels : GoMap String
  Annotations : GoMap String
  OwnerReferences : List OwnerReference
  Data : GoMap (List UInt8)
  Type_ : String
  deriving DecidableEq

/-- The struct `SopsSecretObjectMeta`: metadata for generated Secrets. -/
structure SopsSecretObjectMeta where
  Annotations : GoMap String
  Labels : GoMap String
  deriving DecidableEq

/-- The struct `SopsSecretSpec`. -/
structure SopsSecretSpec where
  Metadata : SopsSecretObjectMeta
  StringData : GoMap String
  Type_ : String
  deriving DecidableEq

/-- The struct `SopsSecretStatus`. -/
structure SopsSecretStatus where
  LastUpdate : Int
  Reason : String
  Status : String
  deriving DecidableEq

/-- The struct `SopsSecret`: the embedded `metav1.ObjectMeta` contributes `Name`,
`Namespace`, `UID`, `Labels` and `Annotations`. -/
structure SopsSecret where
  Name : String
  Namespace : String
  UID : String
  Labels : GoMap String
  Annotations : GoMap String
  Spec : SopsSecretSpec
  Status : SopsSecretStatus
  deriving DecidableEq

/-- The interface `Decryptor`: `Decrypt(fileName, encrypted)` gives bytes or an error. -/
abbrev Decryptor := String → String → Except String (List UInt8)

/-- The struct `ReconcileSopsSecret`, as far as the mutate step uses it: the decryptor, and
what `apiutil.GVKForObject` answers for a `SopsSecret` under the reconciler's scheme. -/
structure ReconcileSopsSecret where
  decryptor : Decryptor
  scheme : Except String GroupVersionKind

/-! ## Library functions the controller calls

`metav1.IsControlledBy` (k8s.io/apimachinery) and `controllerutil.SetControllerReference`,
`controllerutil.CreateOrUpdate` (sigs.k8s.io/controller-runtime) are not part of the
repository; they are embedded here as far as `Reconcile` depends on them. -/

/-- The function `metav1.GetControllerOf`: the first owner reference whose `Controller`
points to true. -/
def GetControllerOf (refs : List OwnerReference) : Option OwnerReference :=
  refs.find? (fun r => decide (r.Controller = some true))

/-- The function `metav1.IsControlledBy(obj, owner)`: the controller reference of `obj`
carries the UID of `owner`. -/
def IsControlledBy (secret : Secret) (owner : SopsSecret) : Bool :=
  match GetControllerOf secret.OwnerReferences with
  | none => false
  | some ref => decide (ref.UID = owner.UID)

/-- The function `referSameObject`: the same group, kind and name. -/
def referSameObject (a b : OwnerReference) : Bool :=
  decide (a.APIVersion.Group = b.APIVersion.Group) && decide (a.Kind = b.Kind) &&
    decide (a.Name = b.Name)

/-- The function `validateOwner`: a namespaced owner needs an object in the same namespace. -/
def validateOwner (owner : SopsSecret) (object : Secret) : Option String :=
  if owner.Namespace ≠ "" then
    if object.Namespace = "" then
      some ("cluster-scoped resource must not have a namespace-scoped owner, owner namespace "
        ++ owner.Namespace)
    else if owner.Namespace ≠ object.Namespace then
      some ("cross-namespace owner references are disallowed, owner namespace "
        ++ owner.Namespace ++ ", obj namespace " ++ object.Namespace)
    else none
  else none

/-- The function `upsertOwnerRef`: put `ref` at the first index that refers to the same object
(`indexOwnerRef`), or append it when there is none. -/
def upsertOwnerRef (ref : OwnerReference) : List OwnerReference → List OwnerReference
  | [] => [ref]
  | r :: rest => if referSameObject r ref then ref :: rest else r :: upsertOwnerRef ref rest

/-- The controller reference that `SetControllerReference` builds for `owner`. -/
def controllerRef (gvk : GroupVersionKind) (owner : SopsSecret) : OwnerReference :=
  { APIVersion := { Group := gvk.Group, Version := gvk.Version }
    Kind := gvk.Kind
    Name := owner.Name
    UID := owner.UID
    BlockOwnerDeletion := some true
    Controller := some true }

/-- The function `controllerutil.SetControllerReference(owner, controlled, scheme)`: the
object after the call and the error. -/
def SetControllerReference (owner : SopsSecret) (controlled : Secret)
    (scheme : Except String GroupVersionKind) : Secret × Option String :=
  match validateOwner owner controlled with
  | some e => (controlled, some e)
  | none =>
    match scheme with
    | .error e => (controlled, some e)
    | .ok gvk =>
      let ref := controllerRef gvk owner
      match GetControllerOf controlled.OwnerReferences with
      | some existing =>
        if !referSameObject existing ref then
          (controlled, some ("Object " ++ controlled.Namespace ++ "/" ++ controlled.Name ++
            " is already owned by another " ++ existing.Kind ++ " controller " ++ existing.Name))
        else
          ({ controlled with OwnerReferences := upsertOwnerRef ref controlled.OwnerReferences },
            none)
      | none =>
        ({ controlled with OwnerReferences := upsertOwnerRef ref controlled.OwnerReferences },
          none)

/-! ## `update` and the mutate step of `Reconcile` -/

/-- The outcome of a call that mutates a Secret: the Secret after the call, the returned
error, and the `Decrypt` calls made, in order. -/
structure MutateResult where
  secret : Secret
  err : Option String
  calls : List (String × String)
  deriving DecidableEq

/-- The `range` loop of `update` over the entries still to visit, with the `data` map and the
call log so far: stop at the first `Decrypt` error, else store the base64 text of the
plaintext under the file name. -/
def decryptEntries (decryptor : Decryptor) :
    List (String × String) → GoMap (List UInt8) → List (String × String) →
      Except String (GoMap (List UInt8)) × List (String × String)
  | [], data, calls => (.ok data, calls)
  | (fileName, encryptedContents) :: rest, data, calls =>
    match decryptor fileName encryptedContents with
    | .error err => (.error err, calls ++ [(fileName, encryptedContents)])
    | .ok decrypted =>
      decryptEntries decryptor rest (data.set fileName (stdEncode decrypted))
        (calls ++ [(fileName, encryptedContents)])

/-- The method `ReconcileSopsSecret.update`. -/
def update (r : ReconcileSopsSecret) (secret : Secret) (sopsSecret : SopsSecret) :
    MutateResult :=
  match decryptEntries r.decryptor sopsSecret.Spec.StringData [] [] with
  | (.error err, calls) => { secret := secret, err := some err, calls := calls }
  | (.ok data, calls) =>
    let secret1 : Secret :=
      { secret with
        Annotations := sopsSecret.Annotations
        Labels := sopsSecret.Labels
        Data := data }
    let secret2 : Secret :=
      if sopsSecret.Spec.Type_ ≠ "" then { secret1 with Type_ := sopsSecret.Spec.Type_ }
      else secret1
    match SetControllerReference sopsSecret secret2 r.scheme with
    | (secret3, some err) =>
      { secret := secret3, err := some ("unable to set ownerReference: " ++ err), calls := calls }
    | (secret3, none) => { secret := secret3, err := none, calls := calls }

/-- The closure that `Reconcile` hands to `CreateOrUpdate`: the ownership guard, then
`update`. -/
def mutateFn (r : ReconcileSopsSecret) (inst : SopsSecret) (secret : Secret) : MutateResult :=
  if secret.CreationTimestamp ≠ 0 ∧ IsControlledBy secret inst = false then
    { secret := secret
      err := some "secret already exists and not owned by sops-operator"
      calls := [] }
  else update r secret inst

/-- Object equality as `equality.Semantic.DeepEqual` sees it. -/
def Secret.semanticDeepEqual (a b : Secret) : Bool :=
  decide (a.Name = b.Name) && decide (a.Namespace = b.Namespace) &&
    decide (a.CreationTimestamp = b.CreationTimestamp) &&
    GoMap.semanticEq a.Labels b.Labels && GoMap.semanticEq a.Annotations b.Annotations &&
    decide (a.OwnerReferences = b.OwnerReferences) && GoMap.semanticEq a.Data b.Data &&
    decide (a.Type_ = b.Type_)

/-- The type `controllerutil.OperationResult`: `None` is the string "unchanged". -/
inductive OperationResult where
  | None
  | Created
  | Updated
  deriving DecidableEq

/-- What the API server answers during one `Reconcile`: the SopsSecret and the Secret at the
requested key (`none` for NotFound), and the errors of the calls (`none` for success). -/
structure Client where
  sopsSecret : Option SopsSecret
  sopsSecretGetErr : Option String
  secret : Option Secret
  secretGetErr : Option String
  writeErr : Option String
  statusUpdateErr : Option String

/-- The outcome of `CreateOrUpdate`: the operation result, the error, the object handed to
`Create` or `Update` when one of them was called, and the `Decrypt` calls made. -/
structure ApplyOutcome where
  result : OperationResult
  err : Option String
  written : Option Secret
  calls : List (String × String)
  deriving DecidableEq

/-- The helper `mutate` of `CreateOrUpdate`: run the closure, then refuse a changed key. -/
def mutate (f : Secret → MutateResult) (obj : Secret) : MutateResult :=
  let m := f obj
  match m.err with
  | some _ => m
  | none =>
    if m.secret.Name ≠ obj.Name ∨ m.secret.Namespace ≠ obj.Namespace then
      { m with err := some "MutateFn cannot mutate object name and/or object namespace" }
    else m

/-- The function `controllerutil.CreateOrUpdate(ctx, c, obj, f)`: create the object when
`Get` finds none, else mutate the object found and call `Update` unless nothing changed. -/
def CreateOrUpdate (c : Client) (obj : Secret) (f : Secret → MutateResult) : ApplyOutcome :=
  match c.secretGetErr with
  | some e => { result := .None, err := some e, written := none, calls := [] }
  | none =>
    match c.secret with
    | none =>
      let m := mutate f obj
      match m.err with
      | some e => { result := .None, err := some e, written := none, calls := m.calls }
      | none =>
        match c.writeErr with
        | some e => { result := .None, err := some e, written := some m.secret, calls := m.calls }
        | none => { result := .Created, err := none, written := some m.secret, calls := m.calls }
    | some found =>
      let existing := found
      let m := mutate f found
      match m.err with
      | some e => { result := .None, err := some e, written := none, calls := m.calls }
      | none =>
        if Secret.semanticDeepEqual existing m.secret then
          { result := .None, err := none, written := none, calls := m.calls }
        else
          match c.writeErr with
          | some e =>
            { result := .None, err := some e, written := some m.secret, calls := m.calls }
          | none =>
            { result := .Updated, err := none, written := some m.secret, calls := m.calls }

/-! ## `time` and `math`

A `time.Time` is an `Int`, the nanoseconds since the zero time; a `time.Duration` is an
`Int`, a number of nanoseconds. -/

/-- The constant `time.Second`. -/
def Second : Int := 1000000000

/-- The constant `time.Hour`. -/
def Hour : Int := 3600 * Second

/-- The largest `time.Duration`. -/
def maxDuration : Int := 2 ^ 63 - 1

/-- The smallest `time.Duration`. -/
def minDuration : Int := -(2 ^ 63)

/-- The value of an `int64` computation whose exact result is `x`: two's complement
wrap-around. -/
def wrapInt64 (x : Int) : Int := (x + 2 ^ 63) % 2 ^ 64 - 2 ^ 63

/-- The method `Time.IsZero`: the time is the zero time. -/
def Time.IsZero (t : Int) : Bool := decide (t = 0)

/-- The method `Time.Round(d)`: the nearest multiple of `d` since the zero time, halfway values
rounded up; `t` itself for `d <= 0`. -/
def Time.Round (t : Int) (d : Int) : Int :=
  if d ≤ 0 then t
  else
    let r := t % d
    if r + r < d then t - r else t + (d - r)

/-- The method `Time.Sub(u)`: the duration `t - u`, or the largest or smallest duration when the
difference does not fit. -/
def Time.Sub (t u : Int) : Int :=
  if minDuration ≤ t - u ∧ t - u ≤ maxDuration then t - u
  else if t < u then minDuration
  else maxDuration

/-- The number of halvings that bring `n` below `2^53`, at most `fuel` of them: the number
of low bits that a 53-bit significand cannot hold. -/
def excessBits (n : Nat) : Nat → Nat
  | 0 => 0
  | fuel + 1 => if n < 2 ^ 53 then 0 else excessBits (n / 2) fuel + 1

/-- The conversion `float64(x)` of an `int64`, as the exact value of the resulting float:
`x` itself below `2^53` in absolute value, else `x` rounded to 53 significant bits, to
nearest with ties to even. -/
def float64 (x : Int) : Int :=
  let n := x.natAbs
  if n < 2 ^ 53 then x
  else
    let e := excessBits n 64
    let q := n / 2 ^ e
    let rest := n % 2 ^ e
    let half := 2 ^ (e - 1)
    let m := if rest > half ∨ (rest = half ∧ q % 2 = 1) then q + 1 else q
    x.sign * ((m * 2 ^ e : Nat) : Int)

/-- The function `math.Min` on two floats that are numbers. -/
def mathMin (x y : Int) : Int := if x ≤ y then x else y

/-- The conversion `time.Duration(f)` of a float with an integer value inside the `int64`
range: that value. -/
def durationOfFloat64 (f : Int) : Int := f

/-! ## The status ledger and the retry delay -/

/-- A `reconcile.Result`. -/
structure Result where
  Requeue : Bool
  RequeueAfter : Int
  deriving DecidableEq

/-- The outcome of `manageError` and `manageSuccess`: the returned result and error, the
status assigned to `instance.Status`, and whether the status update reached the server. The
events sent to the recorder are not part of the embedding. -/
structure ManageOutcome where
  result : Result
  err : Option String
  status : SopsSecretStatus
  persisted : Bool
  deriving DecidableEq

/-- The method `ReconcileSopsSecret.manageError`; `now` is what `metav1.Now()` returns,
`statusUpdateErr` the error of `Status().Update`, `issue` the text `issue.Error()`. -/
def manageError (now : Int) (statusUpdateErr : Option String) (inst : SopsSecret)
    (issue : String) : ManageOutcome :=
  let lastUpdate := inst.Status.LastUpdate
  let lastStatus := inst.Status.Status
  let status : SopsSecretStatus := { LastUpdate := now, Reason := issue, Status := "Failure" }
  match statusUpdateErr with
  | some _ =>
    { result := { RequeueAfter := Second, Requeue := true }
      err := none, status := status, persisted := false }
  | none =>
    let retryInterval : Int :=
      if Time.IsZero lastUpdate || decide (lastStatus = "Success") then Second
      else Time.Sub status.LastUpdate (Time.Round lastUpdate Second)
    { result :=
        { RequeueAfter :=
            durationOfFloat64
              (mathMin (float64 (wrapInt64 (retryInterval * 2))) (float64 (wrapInt64 (Hour * 6))))
          Requeue := true }
      err := none, status := status, persisted := true }

/-- The method `ReconcileSopsSecret.manageSuccess`. -/
def manageSuccess (now : Int) (statusUpdateErr : Option String) (_inst : SopsSecret)
    (_result : OperationResult) : ManageOutcome :=
  let status : SopsSecretStatus := { LastUpdate := now, Reason := "", Status := "Success" }
  match statusUpdateErr with
  | some _ =>
    { result := { RequeueAfter := Second, Requeue := true }
      err := none, status := status, persisted := false }
  | none =>
    { result := { RequeueAfter := 0, Requeue := false }
      err := none, status := status, persisted := true }

/-- The outcome of `Reconcile`: the returned result and error, the Secret handed to `Create`
or `Update`, the status sent to the server, and the `Decrypt` calls made. -/
structure ReconcileOutcome where
  result : Result
  err : Option String
  written : Option Secret
  status : Option SopsSecretStatus
  calls : List (String × String)
  deriving DecidableEq

/-- The method `ReconcileSopsSecret.Reconcile`. -/
def Reconcile (r : ReconcileSopsSecret) (c : Client) (now : Int) : ReconcileOutcome :=
  match c.sopsSecretGetErr with
  | some e =>
    { result := { RequeueAfter := 0, Requeue := false }, err := some e
      written := none, status := none, calls := [] }
  | none =>
    match c.sopsSecret with
    | none =>
      { result := { RequeueAfter := 0, Requeue := false }, err := none
        written := none, status := none, calls := [] }
    | some inst =>
      let secret : Secret :=
        { Name := inst.Name, Namespace := inst.Namespace, CreationTimestamp := 0
          Labels := [], Annotations := [], OwnerReferences := [], Data := [], Type_ := "" }
      let applied := CreateOrUpdate c secret (mutateFn r inst)
      match applied.err with
      | some err =>
        let m := manageError now c.statusUpdateErr inst err
        { result := m.result, err := m.err, written := applied.written
          status := some m.status, calls := applied.calls }
      | none =>
        let m := manageSuccess now c.statusUpdateErr inst applied.result
        { result := m.result, err := m.err, written := applied.written
          status := some m.status, calls := applied.calls }

/-- The delays returned by consecutive failed reconciles at the times `times`, each status
write succeeding and each reconcile reading the status written by the one before; `inst`
carries the status before the first of them. -/
def failureDelays (inst : SopsSecret) : List Int → List Int
  | [] => []
  | now :: rest =>
    let m := manageError now none inst "error"
    m.result.RequeueAfter :: failureDelays { inst with Status := m.status } rest

/-! ## Auxiliary definitions for the statements -/

/-- The SopsSecret `sopsSecret` with the entries of `Spec.StringData` listed in the order
`order`: the same Go map when `order` is a permutation of the entries, ranged over in
another order. -/
def visitedIn (sopsSecret : SopsSecret) (order : List (String × String)) : SopsSecret :=
  { sopsSecret with Spec := { sopsSecret.Spec with StringData := order } }

/-- The Secret that `update` hands to `SetControllerReference` once the loop has produced
`data`: the assignments to `Annotations`, `Labels`, `Data` and `Type`. -/
def assignedBody (secret : Secret) (sopsSecret : SopsSecret) (data : GoMap (List UInt8)) :
    Secret :=
  if sopsSecret.Spec.Type_ ≠ "" then
    { secret with
      Annotations := sopsSecret.Annotations, Labels := sopsSecret.Labels, Data := data
      Type_ := sopsSecret.Spec.Type_ }
  else
    { secret with
      Annotations := sopsSecret.Annotations, Labels := sopsSecret.Labels, Data := data }

/-! ## Sample objects -/

/-- A decryptor that knows one ciphertext, which decrypts to `hello`. -/
def sampleDecryptor : Decryptor :=
  fun _ encrypted => if encrypted = "ciphertext-X" then .ok (asciiBytes "hello")
    else .error "decryption failed"

/-- A reconciler whose scheme knows the SopsSecret kind. -/
def sampleReconciler : ReconcileSopsSecret :=
  { decryptor := sampleDecryptor
    scheme := .ok { Group := "craftypath.github.io", Version := "v1alpha1", Kind := "SopsSecret" } }

/-- A SopsSecret with one encrypted file, labels in `Spec.Metadata` and none of its own. -/
def sampleSopsSecret : SopsSecret :=
  { Name := "db", Namespace := "prod", UID := "uid-1", Labels := [], Annotations := []
    Spec :=
      { Metadata := { Annotations := [("note", "generated")], Labels := [("app", "db")] }
        StringData := [("a.txt", "ciphertext-X")], Type_ := "" }
    Status := { LastUpdate := 0, Reason := "", Status := "" } }

/-- The same SopsSecret with a second file that does not decrypt. -/
def brokenSopsSecret : SopsSecret :=
  { sampleSopsSecret with
    Spec := { sampleSopsSecret.Spec with
      StringData := [("a.txt", "ciphertext-X"), ("b.txt", "garbage")] } }

/-- The Secret that `Reconcile` starts from when none exists at the key. -/
def freshSecret : Secret :=
  { Name := "db", Namespace := "prod", CreationTimestamp := 0, Labels := [], Annotations := []
    OwnerReferences := [], Data := [], Type_ := "" }

/-- A Secret that exists at the key and belongs to nobody. -/
def foreignSecret : Secret :=
  { Name := "db", Namespace := "prod", CreationTimestamp := 63929347100000000000
    Labels := [("team", "payments")], Annotations := []
    OwnerReferences := [], Data := [("password", asciiBytes "hunter2")], Type_ := "Opaque" }

/-- A SopsSecret with two encrypted files. -/
def twoFileSopsSecret : SopsSecret :=
  { sampleSopsSecret with
    Spec := { sampleSopsSecret.Spec with
      StringData := [("a.txt", "ciphertext-X"), ("b.txt", "ciphertext-X")] } }

/-- Whether, in a run of failed reconciles at the times given, each one after the first comes
no sooner than the delay returned by the one before asked for, and less than
`2^62 - 10^9` nanoseconds after it. -/
def retriedAfterDelay (inst : SopsSecret) : List Int → Bool
  | [] => true
  | [_] => true
  | now :: next :: rest =>
    let m := manageError now none inst "error"
    decide (now + m.result.RequeueAfter ≤ next) &&
      decide (next - now < 2 ^ 62 - Second) &&
      retriedAfterDelay { inst with Status := m.status } (next :: rest)

/-- The sample SopsSecret after a failed reconcile at the time `lastUpdate`. -/
def failedSopsSecret (lastUpdate : Int) : SopsSecret :=
  { sampleSopsSecret with
    Status := { LastUpdate := lastUpdate, Reason := "decryption failed", Status := "Failure" } }

/-- A time in November 2026, on a whole second. -/
def sampleNow : Int := 63929347200000000000

/-! ## Lemmas -/

/-- The text written by `Encode` fills a buffer of `EncodedLen` bytes. -/
theorem stdEncode_length (src : List UInt8) :
    (stdEncode src).length = EncodedLen src.length := by
  induction src using stdEncode.induct with
  | case1 => rfl
  | case2 a => simp [stdEncode, EncodedLen]
  | case3 a b => simp [stdEncode, EncodedLen]
  | case4 a b c rest ih =>
    simp only [stdEncode, List.length_cons, ih, EncodedLen]
    omega

theorem GoMap.get_set {β : Type} (m : GoMap β) (k k' : String) (v : β) :
    GoMap.get (GoMap.set m k v) k' = if k = k' then some v else GoMap.get m k' := by
  induction m with
  | nil => simp [GoMap.set, GoMap.get]
  | cons hd tl ih =>
    obtain ⟨a, b⟩ := hd
    by_cases h : a = k
    · subst h
      by_cases h2 : a = k' <;> simp [GoMap.set, GoMap.get, h2]
    · by_cases h2 : a = k'
      · subst h2
        simp [GoMap.set, GoMap.get, h, Ne.symm h]
      · simp [GoMap.set, GoMap.get, h, h2, ih]

theorem GoMap.get_eq_none_of_not_mem {β : Type} (m : GoMap β) (k : String)
    (h : k ∉ GoMap.keys m) : GoMap.get m k = none := by
  induction m with
  | nil => rfl
  | cons hd tl ih =>
    obtain ⟨a, b⟩ := hd
    simp [GoMap.keys] at h
    have h1 : ¬ a = k := fun e => h.1 e.symm
    simp only [GoMap.get, h1, if_false]
    apply ih
    simpa [GoMap.keys] using h.2

/-- A failing entry anywhere in the list stops the loop with an error. -/
theorem decryptEntries_error (d : Decryptor) (entries : List (String × String))
    (h : ∃ kv ∈ entries, ∃ e, d kv.1 kv.2 = .error e) :
    ∀ data calls, ∃ e calls', decryptEntries d entries data calls = (.error e, calls') := by
  induction entries with
  | nil => simp at h
  | cons hd tl ih =>
    intro data calls
    obtain ⟨k, v⟩ := hd
    cases hdv : d k v with
    | error e => exact ⟨e, calls ++ [(k, v)], by simp [decryptEntries, hdv]⟩
    | ok plain =>
      have h' : ∃ kv ∈ tl, ∃ e, d kv.1 kv.2 = .error e := by
        obtain ⟨kv, hmem, e, he⟩ := h
        rcases List.mem_cons.1 hmem with rfl | hmem
        · simp [hdv] at he
        · exact ⟨kv, hmem, e, he⟩
      obtain ⟨e, calls', h2⟩ := ih h' (GoMap.set data k (stdEncode plain)) (calls ++ [(k, v)])
      exact ⟨e, calls', by simp [decryptEntries, hdv, h2]⟩

/-- Without a failing entry the loop visits every entry: with distinct keys, the resulting
map holds the encoded plaintext of each entry and keeps the other keys of `data`. -/
theorem decryptEntries_ok (d : Decryptor) (entries : List (String × String)) :
    ∀ (data data' : GoMap (List UInt8)) (calls calls' : List (String × String)),
      (GoMap.keys entries).Nodup →
      decryptEntries d entries data calls = (.ok data', calls') →
      ∀ k, match GoMap.get entries k with
        | none => GoMap.get data' k = GoMap.get data k
        | some enc =>
          ∃ plain, d k enc = .ok plain ∧ GoMap.get data' k = some (stdEncode plain) := by
  induction entries with
  | nil =>
    intro data data' calls calls' _ h k
    simp [decryptEntries] at h
    simp [GoMap.get, h.1]
  | cons hd tl ih =>
    intro data data' calls calls' hnd h k
    obtain ⟨f, enc⟩ := hd
    have hnd' : f ∉ GoMap.keys tl ∧ (GoMap.keys tl).Nodup := by
      simpa [GoMap.keys] using hnd
    cases hdv : d f enc with
    | error e => simp [decryptEntries, hdv] at h
    | ok plain =>
      simp only [decryptEntries, hdv] at h
      have hrec := ih _ _ _ _ hnd'.2 h k
      by_cases hk : f = k
      · subst hk
        have hnone : GoMap.get tl f = none := GoMap.get_eq_none_of_not_mem tl f hnd'.1
        rw [hnone] at hrec
        simp only [GoMap.get, if_true]
        refine ⟨plain, hdv, ?_⟩
        simpa [GoMap.get_set] using hrec
      · simp only [GoMap.get, hk, if_false]
        cases hget : GoMap.get tl k with
        | none =>
          rw [hget] at hrec
          simpa [GoMap.get_set, hk] using hrec
        | some enc' =>
          rw [hget] at hrec
          simpa using hrec

/-- The Secret after `update` when the loop ends with an error: the one passed in. -/
theorem update_of_loop_error (r : ReconcileSopsSecret) (secret : Secret) (sopsSecret : SopsSecret)
    (e : String) (calls : List (String × String))
    (h : decryptEntries r.decryptor sopsSecret.Spec.StringData [] [] = (.error e, calls)) :
    update r secret sopsSecret = { secret := secret, err := some e, calls := calls } := by
  simp [update, h]

/-- The fields that `SetControllerReference` leaves alone. -/
theorem SetControllerReference_frame (owner : SopsSecret) (s : Secret)
    (scheme : Except String GroupVersionKind) :
    (SetControllerReference owner s scheme).1.Data = s.Data ∧
    (SetControllerReference owner s scheme).1.Labels = s.Labels ∧
    (SetControllerReference owner s scheme).1.Annotations = s.Annotations ∧
    (SetControllerReference owner s scheme).1.Type_ = s.Type_ ∧
    (SetControllerReference owner s scheme).1.Name = s.Name ∧
    (SetControllerReference owner s scheme).1.Namespace = s.Namespace ∧
    (SetControllerReference owner s scheme).1.CreationTimestamp = s.CreationTimestamp := by
  unfold SetControllerReference
  cases validateOwner owner s <;> simp
  cases scheme <;> simp
  cases GetControllerOf s.OwnerReferences <;> simp
  split <;> simp

/-- The loop either stops with an error or ends with a map. -/
theorem decryptEntries_cases (d : Decryptor) (entries : List (String × String))
    (data : GoMap (List UInt8)) (calls : List (String × String)) :
    (∃ e calls', decryptEntries d entries data calls = (.error e, calls')) ∨
    (∃ data' calls', decryptEntries d entries data calls = (.ok data', calls')) := by
  rcases h : decryptEntries d entries data calls with ⟨res, calls'⟩
  cases res with
  | error e => exact Or.inl ⟨e, calls', rfl⟩
  | ok data' => exact Or.inr ⟨data', calls', rfl⟩

/-- The Secret after `update` when the loop ends with the map `data`: the fields other than
the owner references are set from the SopsSecret whether or not the owner reference can be
set. -/
theorem update_of_loop_ok (r : ReconcileSopsSecret) (secret : Secret) (sopsSecret : SopsSecret)
    (data : GoMap (List UInt8)) (calls : List (String × String))
    (h : decryptEntries r.decryptor sopsSecret.Spec.StringData [] [] = (.ok data, calls)) :
    (update r secret sopsSecret).secret.Data = data ∧
    (update r secret sopsSecret).secret.Labels = sopsSecret.Labels ∧
    (update r secret sopsSecret).secret.Annotations = sopsSecret.Annotations ∧
    (update r secret sopsSecret).secret.Type_ =
      (if sopsSecret.Spec.Type_ ≠ "" then sopsSecret.Spec.Type_ else secret.Type_) ∧
    (update r secret sopsSecret).secret.Name = secret.Name ∧
    (update r secret sopsSecret).secret.Namespace = secret.Namespace ∧
    (update r secret sopsSecret).secret.CreationTimestamp = secret.CreationTimestamp := by
  have hframe := fun s => SetControllerReference_frame sopsSecret s r.scheme
  simp only [update, h]
  split
  · rename_i s3 e hs
    have hf := hframe (if sopsSecret.Spec.Type_ ≠ "" then
      { secret with Annotations := sopsSecret.Annotations, Labels := sopsSecret.Labels,
                    Data := data, Type_ := sopsSecret.Spec.Type_ }
      else { secret with Annotations := sopsSecret.Annotations, Labels := sopsSecret.Labels,
                         Data := data })
    simp only [hs] at hf
    by_cases ht : sopsSecret.Spec.Type_ = "" <;> simp_all
  · rename_i s3 hs
    have hf := hframe (if sopsSecret.Spec.Type_ ≠ "" then
      { secret with Annotations := sopsSecret.Annotations, Labels := sopsSecret.Labels,
                    Data := data, Type_ := sopsSecret.Spec.Type_ }
      else { secret with Annotations := sopsSecret.Annotations, Labels := sopsSecret.Labels,
                         Data := data })
    simp only [hs] at hf
    by_cases ht : sopsSecret.Spec.Type_ = "" <;> simp_all

theorem GoMap.get_perm {β : Type} {l1 l2 : GoMap β} (h : l1.Perm l2)
    (hnd : (GoMap.keys l1).Nodup) (k : String) : GoMap.get l1 k = GoMap.get l2 k := by
  induction h with
  | nil => rfl
  | cons x _ ih =>
    obtain ⟨a, b⟩ := x
    have hnd' : (GoMap.keys _).Nodup := (List.nodup_cons.1 (by simpa [GoMap.keys] using hnd)).2
    simp only [GoMap.get]
    split
    · rfl
    · exact ih (by simpa [GoMap.keys] using hnd')
  | swap x y l =>
    obtain ⟨a, b⟩ := x
    obtain ⟨c, d⟩ := y
    have hne : c ≠ a := by
      intro hca
      simp [GoMap.keys, hca] at hnd
    simp only [GoMap.get]
    by_cases h1 : c = k
    · have h2 : ¬ a = k := fun h2 => hne (h1.trans h2.symm)
      simp [h1, h2]
    · simp [h1]
  | trans h1 _ ih1 ih2 =>
    have hnd2 : (GoMap.keys _).Nodup := (List.Perm.nodup_iff (h1.map Prod.fst)).1 hnd
    rw [ih1 hnd, ih2 hnd2]

theorem GoMap.semanticEq_of_get_eq {β : Type} [DecidableEq β] (a b : GoMap β)
    (h : ∀ k, GoMap.get a k = GoMap.get b k) : GoMap.semanticEq a b = true := by
  simp [GoMap.semanticEq, h]

theorem referSameObject_self (ref : OwnerReference) : referSameObject ref ref = true := by
  simp [referSameObject]

theorem upsertOwnerRef_idem (ref : OwnerReference) (refs : List OwnerReference) :
    upsertOwnerRef ref (upsertOwnerRef ref refs) = upsertOwnerRef ref refs := by
  induction refs with
  | nil => simp [upsertOwnerRef, referSameObject_self]
  | cons x rest ih =>
    by_cases hx : referSameObject x ref = true
    · simp [upsertOwnerRef, hx, referSameObject_self]
    · simp [upsertOwnerRef, hx, ih]

/-- After the upsert the controller of the object is the new reference, provided the
controller before, if there was one, referred to the same object. -/
theorem GetControllerOf_upsertOwnerRef (ref : OwnerReference) (hc : ref.Controller = some true)
    (refs : List OwnerReference)
    (h : ∀ existing, GetControllerOf refs = some existing → referSameObject existing ref = true) :
    GetControllerOf (upsertOwnerRef ref refs) = some ref := by
  induction refs with
  | nil => simp [upsertOwnerRef, GetControllerOf, hc]
  | cons x rest ih =>
    by_cases hx : referSameObject x ref = true
    · simp [upsertOwnerRef, hx, GetControllerOf, hc]
    · have hxc : ¬ x.Controller = some true := by
        intro hxc
        exact hx (h x (by simp [GetControllerOf, hxc]))
      have hrest : ∀ existing, GetControllerOf rest = some existing →
          referSameObject existing ref = true := by
        intro existing he
        apply h
        simpa [GetControllerOf, hxc] using he
      have := ih hrest
      simp only [GetControllerOf] at this
      simp [upsertOwnerRef, hx, GetControllerOf, hxc, this]

/-- What a successful `SetControllerReference` has checked and done. -/
theorem SetControllerReference_ok (owner : SopsSecret) (s : Secret)
    (scheme : Except String GroupVersionKind)
    (h : (SetControllerReference owner s scheme).2 = none) :
    ∃ gvk, scheme = .ok gvk ∧ validateOwner owner s = none ∧
      (∀ existing, GetControllerOf s.OwnerReferences = some existing →
        referSameObject existing (controllerRef gvk owner) = true) ∧
      (SetControllerReference owner s scheme).1 =
        { s with OwnerReferences := upsertOwnerRef (controllerRef gvk owner) s.OwnerReferences } := by
  unfold SetControllerReference at h ⊢
  cases hv : validateOwner owner s with
  | some e => simp [hv] at h
  | none =>
    cases scheme with
    | error e => simp [hv] at h
    | ok gvk =>
      refine ⟨gvk, rfl, rfl, ?_⟩
      cases hg : GetControllerOf s.OwnerReferences with
      | none => simp
      | some existing =>
        simp only [hv, hg] at h
        by_cases hr : referSameObject existing (controllerRef gvk owner) = true
        · simp [hr]
        · simp [hr] at h

/-- The function `SetControllerReference` succeeds when the owner is valid, the scheme knows the kind and
the controller of the object, if any, refers to the owner. -/
theorem SetControllerReference_eq (owner : SopsSecret) (s : Secret) (gvk : GroupVersionKind)
    (hv : validateOwner owner s = none)
    (hc : ∀ existing, GetControllerOf s.OwnerReferences = some existing →
        referSameObject existing (controllerRef gvk owner) = true) :
    SetControllerReference owner s (.ok gvk) =
      ({ s with OwnerReferences := upsertOwnerRef (controllerRef gvk owner) s.OwnerReferences },
        none) := by
  unfold SetControllerReference
  simp only [hv]
  cases hg : GetControllerOf s.OwnerReferences with
  | none => simp
  | some existing => simp [hc existing hg]

/-- The method `update` once the loop has produced `data`. -/
theorem update_eq_of_loop_ok (r : ReconcileSopsSecret) (secret : Secret)
    (sopsSecret : SopsSecret) (data : GoMap (List UInt8)) (calls : List (String × String))
    (h : decryptEntries r.decryptor sopsSecret.Spec.StringData [] [] = (.ok data, calls)) :
    update r secret sopsSecret =
      { secret := (SetControllerReference sopsSecret (assignedBody secret sopsSecret data) r.scheme).1
        err := (SetControllerReference sopsSecret (assignedBody secret sopsSecret data) r.scheme).2.map
          (fun e => "unable to set ownerReference: " ++ e)
        calls := calls } := by
  have hu : update r secret sopsSecret =
      (match SetControllerReference sopsSecret (assignedBody secret sopsSecret data) r.scheme with
      | (secret3, some err) =>
        { secret := secret3, err := some ("unable to set ownerReference: " ++ err)
          calls := calls }
      | (secret3, none) => { secret := secret3, err := none, calls := calls }) := by
    simp only [update, h]
    rfl
  rw [hu]
  generalize SetControllerReference sopsSecret (assignedBody secret sopsSecret data) r.scheme = p
  obtain ⟨s3, e⟩ := p
  cases e <;> rfl

/-- An error of the loop comes from an entry that does not decrypt. -/
theorem decryptEntries_error_inv (d : Decryptor) (entries : List (String × String)) :
    ∀ data calls e calls', decryptEntries d entries data calls = (.error e, calls') →
      ∃ kv ∈ entries, ∃ e', d kv.1 kv.2 = .error e' := by
  induction entries with
  | nil => intro data calls e calls' h; simp [decryptEntries] at h
  | cons hd tl ih =>
    intro data calls e calls' h
    obtain ⟨k, v⟩ := hd
    cases hdv : d k v with
    | error e' => exact ⟨(k, v), List.mem_cons_self _ _, e', hdv⟩
    | ok plain =>
      simp only [decryptEntries, hdv] at h
      obtain ⟨kv, hmem, he⟩ := ih _ _ _ _ h
      exact ⟨kv, List.mem_cons_of_mem _ hmem, he⟩

/-- Two visiting orders of the same entries with distinct keys give maps with the same
lookups. -/
theorem decryptEntries_perm (d : Decryptor) (entries order : List (String × String))
    (horder : order.Perm entries) (hkeys : (GoMap.keys entries).Nodup)
    (data1 : GoMap (List UInt8)) (calls1 : List (String × String))
    (h1 : decryptEntries d entries [] [] = (.ok data1, calls1)) :
    ∃ data2 calls2, decryptEntries d order [] [] = (.ok data2, calls2) ∧
      ∀ k, GoMap.get data2 k = GoMap.get data1 k := by
  rcases decryptEntries_cases d order [] [] with ⟨e, calls', herr⟩ | ⟨data2, calls2, hok⟩
  · obtain ⟨kv, hmem, he⟩ := decryptEntries_error_inv d order _ _ _ _ herr
    obtain ⟨e1, c1, h1'⟩ := decryptEntries_error d entries ⟨kv, horder.mem_iff.1 hmem, he⟩ [] []
    rw [h1] at h1'
    simp at h1'
  · refine ⟨data2, calls2, hok, fun k => ?_⟩
    have hkeys2 : (GoMap.keys order).Nodup :=
      (List.Perm.nodup_iff (horder.map Prod.fst)).2 hkeys
    have a1 := decryptEntries_ok d entries [] data1 [] calls1 hkeys h1 k
    have a2 := decryptEntries_ok d order [] data2 [] calls2 hkeys2 hok k
    rw [GoMap.get_perm horder hkeys2 k] at a2
    cases hget : GoMap.get entries k with
    | none =>
      rw [hget] at a1 a2
      simp only at a1 a2
      rw [a1, a2]
    | some enc =>
      rw [hget] at a1 a2
      obtain ⟨p1, hp1, hg1⟩ := a1
      obtain ⟨p2, hp2, hg2⟩ := a2
      rw [hp1] at hp2
      injection hp2 with hp2
      rw [hg1, hg2, hp2]

theorem validateOwner_congr (o1 o2 : SopsSecret) (s1 s2 : Secret)
    (ho : o1.Namespace = o2.Namespace) (hs : s1.Namespace = s2.Namespace) :
    validateOwner o1 s1 = validateOwner o2 s2 := by
  simp [validateOwner, ho, hs]

theorem assignedBody_Name (s : Secret) (x : SopsSecret) (d : GoMap (List UInt8)) :
    (assignedBody s x d).Name = s.Name := by
  unfold assignedBody; split <;> rfl

theorem assignedBody_Namespace (s : Secret) (x : SopsSecret) (d : GoMap (List UInt8)) :
    (assignedBody s x d).Namespace = s.Namespace := by
  unfold assignedBody; split <;> rfl

theorem assignedBody_CreationTimestamp (s : Secret) (x : SopsSecret) (d : GoMap (List UInt8)) :
    (assignedBody s x d).CreationTimestamp = s.CreationTimestamp := by
  unfold assignedBody; split <;> rfl

theorem assignedBody_OwnerReferences (s : Secret) (x : SopsSecret) (d : GoMap (List UInt8)) :
    (assignedBody s x d).OwnerReferences = s.OwnerReferences := by
  unfold assignedBody; split <;> rfl

theorem assignedBody_Labels (s : Secret) (x : SopsSecret) (d : GoMap (List UInt8)) :
    (assignedBody s x d).Labels = x.Labels := by
  unfold assignedBody; split <;> rfl

theorem assignedBody_Annotations (s : Secret) (x : SopsSecret) (d : GoMap (List UInt8)) :
    (assignedBody s x d).Annotations = x.Annotations := by
  unfold assignedBody; split <;> rfl

theorem assignedBody_Data (s : Secret) (x : SopsSecret) (d : GoMap (List UInt8)) :
    (assignedBody s x d).Data = d := by
  unfold assignedBody; split <;> rfl

theorem assignedBody_Type (s : Secret) (x : SopsSecret) (d : GoMap (List UInt8)) :
    (assignedBody s x d).Type_ = (if x.Spec.Type_ ≠ "" then x.Spec.Type_ else s.Type_) := by
  unfold assignedBody; split <;> simp_all

theorem Secret.ext_fields (a b : Secret) (h1 : a.Name = b.Name)
    (h2 : a.Namespace = b.Namespace) (h3 : a.CreationTimestamp = b.CreationTimestamp)
    (h4 : a.Labels = b.Labels) (h5 : a.Annotations = b.Annotations)
    (h6 : a.OwnerReferences = b.OwnerReferences) (h7 : a.Data = b.Data)
    (h8 : a.Type_ = b.Type_) : a = b := by
  cases a; cases b; simp_all

/-- The shape of a successful mutate step, and of the mutate step applied again to its
result (with any creation timestamp, and with the entries visited in any order). -/
theorem mutateFn_again (r : ReconcileSopsSecret) (inst : SopsSecret) (secret : Secret)
    (order : List (String × String)) (horder : order.Perm inst.Spec.StringData)
    (hkeys : (GoMap.keys inst.Spec.StringData).Nodup)
    (hok : (mutateFn r inst secret).err = none) (ts : Int) :
    ∃ data1 data2 calls2 refs,
      (mutateFn r inst secret).secret =
        { assignedBody secret inst data1 with OwnerReferences := refs } ∧
      mutateFn r (visitedIn inst order)
          { (mutateFn r inst secret).secret with CreationTimestamp := ts } =
        { secret :=
            { assignedBody secret inst data2 with OwnerReferences := refs, CreationTimestamp := ts }
          err := none, calls := calls2 } ∧
      (∀ k, GoMap.get data2 k = GoMap.get data1 k) ∧
      (order = inst.Spec.StringData → data2 = data1) := by
  -- the first run passed the guard
  have hupd : mutateFn r inst secret = update r secret inst := by
    unfold mutateFn
    split
    · rename_i hg
      simp [mutateFn, hg] at hok
    · rfl
  rw [hupd] at hok ⊢
  -- its loop ended with a map
  rcases decryptEntries_cases r.decryptor inst.Spec.StringData [] [] with
    ⟨e, calls, hloop⟩ | ⟨data1, calls1, hloop⟩
  · rw [update_of_loop_error r secret inst e calls hloop] at hok
    simp at hok
  rw [update_eq_of_loop_ok r secret inst data1 calls1 hloop] at hok ⊢
  simp only [Option.map_eq_none'] at hok
  obtain ⟨gvk, hscheme, hv, hctl, hres⟩ := SetControllerReference_ok inst _ r.scheme hok
  have f4 := assignedBody_OwnerReferences secret inst data1
  obtain ⟨data2, calls2, hloop2, hget⟩ :=
    decryptEntries_perm r.decryptor inst.Spec.StringData order horder hkeys data1 calls1 hloop
  have hrefctl : (controllerRef gvk inst).Controller = some true := rfl
  have hctl' := GetControllerOf_upsertOwnerRef (controllerRef gvk inst) hrefctl
    secret.OwnerReferences (by rw [← f4]; exact hctl)
  refine ⟨data1, data2, calls2, upsertOwnerRef (controllerRef gvk inst) secret.OwnerReferences,
    ?_, ?_, hget, ?_⟩
  · simp only [hres, f4]
  · -- the second run
    simp only [hres, f4]
    have hguard : IsControlledBy
        { assignedBody secret inst data1 with
          OwnerReferences := upsertOwnerRef (controllerRef gvk inst) secret.OwnerReferences
          CreationTimestamp := ts } (visitedIn inst order) = true := by
      simp only [IsControlledBy, hctl']
      simp [controllerRef, visitedIn]
    have hloop2' : decryptEntries r.decryptor (visitedIn inst order).Spec.StringData [] [] =
        (.ok data2, calls2) := hloop2
    simp only [mutateFn, hguard]
    simp only [Bool.true_eq_false, and_false, if_false]
    rw [update_eq_of_loop_ok r _ (visitedIn inst order) data2 calls2 hloop2', hscheme]
    have hv2 : validateOwner (visitedIn inst order) (assignedBody
        { assignedBody secret inst data1 with
          OwnerReferences := upsertOwnerRef (controllerRef gvk inst) secret.OwnerReferences
          CreationTimestamp := ts } (visitedIn inst order) data2) = none := by
      rw [← hv]
      apply validateOwner_congr
      · rfl
      · simp only [assignedBody_Namespace]
    have href : controllerRef gvk (visitedIn inst order) = controllerRef gvk inst := rfl
    rw [SetControllerReference_eq (visitedIn inst order) _ gvk hv2 (by
      intro existing he
      rw [assignedBody_OwnerReferences] at he
      simp only at he
      rw [hctl'] at he
      injection he with he
      rw [← he, href]
      exact referSameObject_self _)]
    simp only [Option.map_none', assignedBody_OwnerReferences, href, upsertOwnerRef_idem]
    congr 1
    apply Secret.ext_fields
    · simp only [assignedBody_Name]
    · simp only [assignedBody_Namespace]
    · simp only [assignedBody_CreationTimestamp]
    · simp only [assignedBody_Labels]; rfl
    · simp only [assignedBody_Annotations]; rfl
    · rfl
    · simp only [assignedBody_Data]
    · simp only [assignedBody_Type]
      show (if inst.Spec.Type_ ≠ "" then inst.Spec.Type_ else
        (if inst.Spec.Type_ ≠ "" then inst.Spec.Type_ else secret.Type_)) = _
      by_cases ht : inst.Spec.Type_ = "" <;> simp [ht]
  · intro ho
    subst ho
    rw [hloop] at hloop2
    injection hloop2 with h1 h2
    injection h1 with h1
    exact h1.symm
theorem wrapInt64_of_range (x : Int) (h1 : -9223372036854775808 ≤ x)
    (h2 : x < 9223372036854775808) : wrapInt64 x = x := by
  unfold wrapInt64
  norm_num
  omega

theorem float64_of_small (x : Int) (h : x.natAbs < 2 ^ 53) : float64 x = x := by
  unfold float64
  simp only [h, if_true]

theorem excessBits_spec (fuel n : Nat) (h : 2 ^ 52 ≤ n) :
    2 ^ 52 * 2 ^ excessBits n fuel ≤ n := by
  induction fuel generalizing n with
  | zero => simpa [excessBits] using h
  | succ f ih =>
    unfold excessBits
    split
    · simpa using h
    · rename_i hn
      have hn' : 2 ^ 53 ≤ n := Nat.le_of_not_lt hn
      have h2 : 2 ^ 52 ≤ n / 2 := by omega
      have := ih (n / 2) h2
      have hpow : 2 ^ (excessBits (n / 2) f + 1) = 2 ^ excessBits (n / 2) f * 2 := pow_succ _ _
      rw [hpow]
      have hdiv : n / 2 * 2 ≤ n := Nat.div_mul_le_self n 2
      calc 2 ^ 52 * (2 ^ excessBits (n / 2) f * 2)
          = (2 ^ 52 * 2 ^ excessBits (n / 2) f) * 2 := by ring
        _ ≤ n / 2 * 2 := Nat.mul_le_mul_right 2 this
        _ ≤ n := hdiv

/-- A large `int64` stays large as a float. -/
theorem float64_of_large (x : Int) (h : 9007199254740992 ≤ x) :
    4503599627370496 ≤ float64 x := by
  obtain ⟨n, rfl⟩ := Int.eq_ofNat_of_zero_le (by omega : (0 : Int) ≤ x)
  have hn : 2 ^ 53 ≤ n := by
    have : (9007199254740992 : Int) ≤ (n : Int) := h
    norm_num
    exact_mod_cast this
  have hnot : ¬ n < 2 ^ 53 := Nat.not_lt.2 hn
  have hsign : (n : Int).sign = 1 := Int.sign_eq_one_of_pos (by omega)
  have hspec := excessBits_spec 64 n (by omega)
  have hpos : 0 < 2 ^ excessBits n 64 := Nat.pow_pos (by norm_num)
  have hq : 2 ^ 52 ≤ n / 2 ^ excessBits n 64 := by
    rw [Nat.le_div_iff_mul_le hpos]
    exact hspec
  simp only [float64, Int.natAbs_ofNat, hnot, if_false, hsign, one_mul]
  have hm : 2 ^ 52 ≤ (if n % 2 ^ excessBits n 64 > 2 ^ (excessBits n 64 - 1) ∨
      (n % 2 ^ excessBits n 64 = 2 ^ (excessBits n 64 - 1) ∧
        n / 2 ^ excessBits n 64 % 2 = 1)
      then n / 2 ^ excessBits n 64 + 1 else n / 2 ^ excessBits n 64) := by
    split <;> omega
  have hprod := Nat.mul_le_mul hm hpos
  have : (4503599627370496 : Int) = ((2 ^ 52 * 1 : Nat) : Int) := by norm_num
  rw [this]
  exact_mod_cast hprod

/-- The cap of the delay: six hours, exactly representable. -/
theorem float64_six_hours : float64 (wrapInt64 (Hour * 6)) = 21600000000000 := by
  decide

/-- Above `-2^53` the float conversion does not change the smaller of the doubled interval
and the cap. -/
theorem mathMin_float64 (v : Int) (h0 : -9007199254740992 < v) :
    mathMin (float64 v) 21600000000000 = mathMin v 21600000000000 := by
  by_cases hs : v < 9007199254740992
  · have : v.natAbs < 2 ^ 53 := by
      have : (v.natAbs : Int) < 9007199254740992 := by omega
      norm_num
      exact_mod_cast this
    rw [float64_of_small v this]
  · have hl := float64_of_large v (by omega)
    unfold mathMin
    rw [if_neg (by omega), if_neg (by omega)]

theorem Time.Round_second_bounds (t : Int) :
    t - 500000000 < Time.Round t Second ∧ Time.Round t Second ≤ t + 500000000 := by
  unfold Time.Round Second
  norm_num
  split <;> omega

theorem Time.Round_second_of_whole (t : Int) (h : t % Second = 0) :
    Time.Round t Second = t := by
  unfold Time.Round
  unfold Second at h ⊢
  norm_num
  omega

theorem Time.Sub_of_range (t u : Int) (h1 : -9223372036854775808 ≤ t - u)
    (h2 : t - u ≤ 9223372036854775807) : Time.Sub t u = t - u := by
  unfold Time.Sub minDuration maxDuration
  norm_num
  omega

/-- The result of `manageError` when the status write fails: the fixed retry. -/
theorem manageError_of_write_error (now : Int) (e : String) (inst : SopsSecret)
    (issue : String) :
    manageError now (some e) inst issue =
      { result := { RequeueAfter := Second, Requeue := true }, err := none
        status := { LastUpdate := now, Reason := issue, Status := "Failure" }
        persisted := false } := rfl

/-- The result of `manageError` on a first failure or a failure after a success. -/
theorem manageError_first (now : Int) (inst : SopsSecret) (issue : String)
    (h : inst.Status.LastUpdate = 0 ∨ inst.Status.Status = "Success") :
    manageError now none inst issue =
      { result := { RequeueAfter := 2000000000, Requeue := true }, err := none
        status := { LastUpdate := now, Reason := issue, Status := "Failure" }
        persisted := true } := by
  have hc : (Time.IsZero inst.Status.LastUpdate || decide (inst.Status.Status = "Success"))
      = true := by
    rcases h with h | h <;> simp [Time.IsZero, h]
  have hd : durationOfFloat64
      (mathMin (float64 (wrapInt64 (Second * 2))) (float64 (wrapInt64 (Hour * 6))))
      = 2000000000 := by decide
  simp only [manageError, hc, if_true, hd]

/-- The result of `manageError` on a later failure, when the doubled interval fits an
`int64`. -/
theorem manageError_later (now : Int) (inst : SopsSecret) (issue : String)
    (hprev : inst.Status.LastUpdate ≠ 0) (hstatus : inst.Status.Status ≠ "Success")
    (hlo : -4503599627370496 < now - Time.Round inst.Status.LastUpdate Second)
    (hhi : now - Time.Round inst.Status.LastUpdate Second < 4611686018427387904) :
    manageError now none inst issue =
      { result :=
          { RequeueAfter :=
              mathMin (2 * (now - Time.Round inst.Status.LastUpdate Second)) 21600000000000
            Requeue := true }
        err := none
        status := { LastUpdate := now, Reason := issue, Status := "Failure" }
        persisted := true } := by
  have hc : (Time.IsZero inst.Status.LastUpdate || decide (inst.Status.Status = "Success"))
      = false := by
    simp [Time.IsZero, hprev, hstatus]
  have hsub : Time.Sub now (Time.Round inst.Status.LastUpdate Second) =
      now - Time.Round inst.Status.LastUpdate Second :=
    Time.Sub_of_range _ _ (by omega) (by omega)
  have hwrap : wrapInt64 ((now - Time.Round inst.Status.LastUpdate Second) * 2) =
      2 * (now - Time.Round inst.Status.LastUpdate Second) := by
    rw [wrapInt64_of_range _ (by omega) (by omega)]
    ring
  simp only [manageError, hc, float64_six_hours, durationOfFloat64]
  simp only [Bool.false_eq_true, if_false, hsub, hwrap]
  rw [mathMin_float64 _ (by omega)]

/-- The delay never exceeds six hours. -/
theorem manageError_le_cap (now : Int) (statusUpdateErr : Option String) (inst : SopsSecret)
    (issue : String) :
    (manageError now statusUpdateErr inst issue).result.RequeueAfter ≤ 21600000000000 := by
  cases statusUpdateErr with
  | some e =>
    rw [manageError_of_write_error]
    show Second ≤ 21600000000000
    decide
  | none =>
    simp only [manageError, float64_six_hours, durationOfFloat64, mathMin]
    split <;> omega

theorem mathMin_eq_min (x y : Int) : mathMin x y = min x y := by
  unfold mathMin
  split <;> omega

theorem manageError_status_none (now : Int) (inst : SopsSecret) (issue : String) :
    (manageError now none inst issue).status
      = { LastUpdate := now, Reason := issue, Status := "Failure" } := rfl

/-- In a run where every retry waits for the delay asked for, a delay of at least one second
is followed by delays that never decrease. -/
theorem failureDelays_chain (times : List Int) :
    ∀ inst : SopsSecret,
      (∀ t rest, times = t :: rest →
        Second ≤ (manageError t none inst "error").result.RequeueAfter) →
      (∀ t ∈ times, 0 < t) → retriedAfterDelay inst times = true →
      List.Chain' (fun a b => a ≤ b) (failureDelays inst times) := by
  induction times with
  | nil => intro inst _ _ _; simp [failureDelays]
  | cons t tail ih =>
    intro inst hhead hpos hretry
    cases tail with
    | nil => simp [failureDelays]
    | cons t' rest =>
      have hd := hhead t (t' :: rest) rfl
      have hcap := manageError_le_cap t none inst "error"
      simp only [retriedAfterDelay, Bool.and_eq_true, decide_eq_true_eq] at hretry
      obtain ⟨⟨hwait, hgap⟩, hrest⟩ := hretry
      have hgap' : t' - t < 4611686018427387904 - 1000000000 := by
        have h62 : (2 : Int) ^ 62 = 4611686018427387904 := by norm_num
        unfold Second at hgap
        omega
      have htpos : 0 < t := hpos t (List.mem_cons_self _ _)
      have hround := Time.Round_second_bounds t
      unfold Second at hd
      -- the delay of the next failure
      have hnext : (manageError t' none
          { inst with Status := (manageError t none inst "error").status } "error").result.RequeueAfter
          = mathMin (2 * (t' - Time.Round t Second)) 21600000000000 := by
        have h1 : ({ inst with Status := (manageError t none inst "error").status } :
            SopsSecret).Status.LastUpdate ≠ 0 := by
          show t ≠ 0
          omega
        have h2 : ({ inst with Status := (manageError t none inst "error").status } :
            SopsSecret).Status.Status ≠ "Success" := by
          show "Failure" ≠ "Success"
          decide
        have h3 : -4503599627370496 < t' - Time.Round
            ({ inst with Status := (manageError t none inst "error").status } :
              SopsSecret).Status.LastUpdate Second := by
          show -4503599627370496 < t' - Time.Round t Second
          omega
        have h4 : t' - Time.Round ({ inst with Status := (manageError t none inst "error").status } :
            SopsSecret).Status.LastUpdate Second < 4611686018427387904 := by
          show t' - Time.Round t Second < 4611686018427387904
          omega
        rw [manageError_later t' _ "error" h1 h2 h3 h4]
        rfl
      have hle : (manageError t none inst "error").result.RequeueAfter ≤
          (manageError t' none
            { inst with Status := (manageError t none inst "error").status } "error").result.RequeueAfter := by
        rw [hnext]
        unfold mathMin
        split <;> omega
      have hchain := ih { inst with Status := (manageError t none inst "error").status }
        (by
          intro t0 rest0 h0
          injection h0 with h0 _
          subst h0
          unfold Second
          omega)
        (fun x hx => hpos x (List.mem_cons_of_mem _ hx)) hrest
      simp only [failureDelays] at hchain ⊢
      exact List.Chain'.cons hle hchain

/-! ## The claims -/

/-- Claim C1, ownership safety: for a Secret that exists (non-zero creation timestamp) and is
not controlled by the SopsSecret, the mutate step returns an error, makes no `Decrypt` call and
returns the Secret with every field as it was; run inside `Reconcile`, nothing is written to
the Secret and the reconcile ends on the failure path, with the status "Failure". -/
theorem mutateFn_ownership_safety (r : ReconcileSopsSecret) (inst : SopsSecret)
    (secret : Secret) (hexists : secret.CreationTimestamp ≠ 0)
    (hforeign : IsControlledBy secret inst = false) :
    (∃ e, (mutateFn r inst secret).err = some e) ∧
    (mutateFn r inst secret).calls = [] ∧
    (mutateFn r inst secret).secret = secret ∧
    ∀ (c : Client) (now : Int), c.sopsSecretGetErr = none → c.sopsSecret = some inst →
      c.secretGetErr = none → c.secret = some secret →
      (Reconcile r c now).written = none ∧ (Reconcile r c now).calls = [] ∧
      (Reconcile r c now).result.Requeue = true ∧
      (Reconcile r c now).status = some
        { LastUpdate := now, Reason := "secret already exists and not owned by sops-operator"
          Status := "Failure" } := by
  have hm : mutateFn r inst secret =
      { secret := secret, err := some "secret already exists and not owned by sops-operator"
        calls := [] } := by
    simp [mutateFn, hexists, hforeign]
  refine ⟨⟨_, by rw [hm]⟩, by rw [hm], by rw [hm], ?_⟩
  intro c now h1 h2 h3 h4
  have happ : CreateOrUpdate c
      { Name := inst.Name, Namespace := inst.Namespace, CreationTimestamp := 0
        Labels := [], Annotations := [], OwnerReferences := [], Data := [], Type_ := "" }
      (mutateFn r inst) =
      { result := .None, err := some "secret already exists and not owned by sops-operator"
        written := none, calls := [] } := by
    simp [CreateOrUpdate, h3, h4, mutate, hm]
  simp only [Reconcile, h1, h2, happ]
  cases hs : c.statusUpdateErr <;> simp [manageError, hs]

/-- The statement of C1 at a Secret that belongs to nobody. -/
theorem mutateFn_ownership_safety_witness :
    foreignSecret.CreationTimestamp ≠ 0 ∧
    IsControlledBy foreignSecret sampleSopsSecret = false ∧
    (mutateFn sampleReconciler sampleSopsSecret foreignSecret).calls = [] ∧
    (mutateFn sampleReconciler sampleSopsSecret foreignSecret).secret = foreignSecret :=
  ⟨by decide, by decide,
    (mutateFn_ownership_safety sampleReconciler sampleSopsSecret foreignSecret
      (by decide) (by decide)).2.1,
    (mutateFn_ownership_safety sampleReconciler sampleSopsSecret foreignSecret
      (by decide) (by decide)).2.2.1⟩

/-- Claim C2, all-or-nothing: when `Decrypt` fails for at least one entry of `Spec.StringData`,
then in whatever order the entries are visited `update` returns an error and the Secret it
was given, so no field of it is modified. -/
theorem update_all_or_nothing (r : ReconcileSopsSecret) (secret : Secret)
    (sopsSecret : SopsSecret) (order : List (String × String))
    (horder : order.Perm sopsSecret.Spec.StringData)
    (hfail : ∃ kv ∈ sopsSecret.Spec.StringData, ∃ e, r.decryptor kv.1 kv.2 = .error e) :
    (∃ e, (update r secret
        { sopsSecret with Spec := { sopsSecret.Spec with StringData := order } }).err = some e) ∧
    (update r secret
        { sopsSecret with Spec := { sopsSecret.Spec with StringData := order } }).secret
      = secret := by
  have hfail' : ∃ kv ∈ order, ∃ e, r.decryptor kv.1 kv.2 = .error e := by
    obtain ⟨kv, hmem, he⟩ := hfail
    exact ⟨kv, horder.mem_iff.2 hmem, he⟩
  obtain ⟨e, calls, hloop⟩ := decryptEntries_error r.decryptor order hfail' [] []
  have hu := update_of_loop_error r secret
    { sopsSecret with Spec := { sopsSecret.Spec with StringData := order } } e calls hloop
  rw [hu]
  exact ⟨⟨e, rfl⟩, rfl⟩

/-- The statement of C2 at a SopsSecret whose second file does not decrypt, visited in
reverse order. -/
theorem update_all_or_nothing_witness :
    (update sampleReconciler foreignSecret
        { brokenSopsSecret with Spec := { brokenSopsSecret.Spec with
            StringData := [("b.txt", "garbage"), ("a.txt", "ciphertext-X")] } }).secret
      = foreignSecret :=
  (update_all_or_nothing sampleReconciler foreignSecret brokenSopsSecret
    [("b.txt", "garbage"), ("a.txt", "ciphertext-X")] (List.Perm.swap _ _ _)
    ⟨("b.txt", "garbage"), by decide, "decryption failed", rfl⟩).2

/-- Claim C3, desired-state data: when the keys of `Spec.StringData` are distinct (a Go map) and
`update` succeeds, the Secret's `Data` has exactly the keys of `Spec.StringData`, whatever
keys it had before, and under each key the standard padded base64 text of the decrypted
entry; for the single entry `a.txt` decrypting to `hello` that text is `aGVsbG8=`. -/
theorem update_desired_data (r : ReconcileSopsSecret) (secret : Secret)
    (sopsSecret : SopsSecret) (hkeys : (GoMap.keys sopsSecret.Spec.StringData).Nodup)
    (hok : (update r secret sopsSecret).err = none) :
    (∀ k, match GoMap.get sopsSecret.Spec.StringData k with
      | none => GoMap.get (update r secret sopsSecret).secret.Data k = none
      | some enc => ∃ plain, r.decryptor k enc = .ok plain ∧
          GoMap.get (update r secret sopsSecret).secret.Data k = some (stdEncode plain)) ∧
    (∀ X, sopsSecret.Spec.StringData = [("a.txt", X)] →
      r.decryptor "a.txt" X = .ok (asciiBytes "hello") →
      GoMap.get (update r secret sopsSecret).secret.Data "a.txt"
        = some (asciiBytes "aGVsbG8=")) := by
  rcases decryptEntries_cases r.decryptor sopsSecret.Spec.StringData [] [] with
    ⟨e, calls, hloop⟩ | ⟨data, calls, hloop⟩
  · rw [update_of_loop_error r secret sopsSecret e calls hloop] at hok
    simp at hok
  · have hdata := (update_of_loop_ok r secret sopsSecret data calls hloop).1
    have hall := decryptEntries_ok r.decryptor sopsSecret.Spec.StringData [] data [] calls
      hkeys hloop
    rw [hdata]
    refine ⟨fun k => ?_, ?_⟩
    · have hk := hall k
      cases hget : GoMap.get sopsSecret.Spec.StringData k with
      | none => rw [hget] at hk; simpa [GoMap.get] using hk
      | some enc => rw [hget] at hk; simpa using hk
    · intro X hX hdec
      have hk := hall "a.txt"
      rw [hX] at hk
      simp only [GoMap.get, if_true] at hk
      obtain ⟨plain, hp, hg⟩ := hk
      rw [hdec] at hp
      have hplain : plain = asciiBytes "hello" := by
        injection hp with hp
        exact hp.symm
      rw [hg, hplain]
      decide

/-- The statement of C3 at the sample SopsSecret and a fresh Secret. -/
theorem update_desired_data_witness :
    (GoMap.keys sampleSopsSecret.Spec.StringData).Nodup ∧
    (update sampleReconciler freshSecret sampleSopsSecret).err = none ∧
    GoMap.get (update sampleReconciler freshSecret sampleSopsSecret).secret.Data "a.txt"
      = some (asciiBytes "aGVsbG8=") :=
  ⟨by decide, by decide,
    (update_desired_data sampleReconciler freshSecret sampleSopsSecret (by decide)
      (by decide)).2 "ciphertext-X" rfl rfl⟩

/-- Claim C4, idempotence: after a successful mutate step (ownership guard, then `update`), the
mutate step for the unchanged SopsSecret applied to the Secret produced, whatever creation
timestamp the server gave it and in whatever order the entries are visited, succeeds and
yields a Secret equal to that one (field for field when the order is the same); so
`CreateOrUpdate` on that Secret returns the result "unchanged" without an error and
without calling `Update`. -/
theorem mutateFn_idempotent (r : ReconcileSopsSecret) (inst : SopsSecret) (secret : Secret)
    (order : List (String × String)) (horder : order.Perm inst.Spec.StringData)
    (hkeys : (GoMap.keys inst.Spec.StringData).Nodup)
    (hok : (mutateFn r inst secret).err = none) (ts : Int) :
    (mutateFn r (visitedIn inst order)
      { (mutateFn r inst secret).secret with CreationTimestamp := ts }).err = none ∧
    Secret.semanticDeepEqual { (mutateFn r inst secret).secret with CreationTimestamp := ts }
      (mutateFn r (visitedIn inst order)
        { (mutateFn r inst secret).secret with CreationTimestamp := ts }).secret = true ∧
    (order = inst.Spec.StringData →
      (mutateFn r (visitedIn inst order)
        { (mutateFn r inst secret).secret with CreationTimestamp := ts }).secret
        = { (mutateFn r inst secret).secret with CreationTimestamp := ts }) ∧
    ∀ (c : Client) (obj : Secret), c.secretGetErr = none →
      c.secret = some { (mutateFn r inst secret).secret with CreationTimestamp := ts } →
      (CreateOrUpdate c obj (mutateFn r (visitedIn inst order))).result = .None ∧
      (CreateOrUpdate c obj (mutateFn r (visitedIn inst order))).err = none ∧
      (CreateOrUpdate c obj (mutateFn r (visitedIn inst order))).written = none := by
  obtain ⟨data1, data2, calls2, refs, hfirst, hsecond, hget, hsame⟩ :=
    mutateFn_again r inst secret order horder hkeys hok ts
  have hsem : Secret.semanticDeepEqual
      { (mutateFn r inst secret).secret with CreationTimestamp := ts }
      (mutateFn r (visitedIn inst order)
        { (mutateFn r inst secret).secret with CreationTimestamp := ts }).secret = true := by
    rw [hsecond, hfirst]
    simp only [Secret.semanticDeepEqual, assignedBody_Name, assignedBody_Namespace,
      assignedBody_Labels, assignedBody_Annotations, assignedBody_Data, assignedBody_Type]
    simp [GoMap.semanticEq_of_get_eq, hget]
  refine ⟨by rw [hsecond], hsem, ?_, ?_⟩
  · intro ho
    rw [hsecond, hfirst, hsame ho]
  · intro c obj hgerr hfound
    have hname : (mutateFn r (visitedIn inst order)
        { (mutateFn r inst secret).secret with CreationTimestamp := ts }).secret.Name =
        (mutateFn r inst secret).secret.Name := by
      rw [hsecond, hfirst]
      simp only [assignedBody_Name]
    have hns : (mutateFn r (visitedIn inst order)
        { (mutateFn r inst secret).secret with CreationTimestamp := ts }).secret.Namespace =
        (mutateFn r inst secret).secret.Namespace := by
      rw [hsecond, hfirst]
      simp only [assignedBody_Namespace]
    have herr : (mutateFn r (visitedIn inst order)
        { (mutateFn r inst secret).secret with CreationTimestamp := ts }).err = none := by
      rw [hsecond]
    have hmut : mutate (mutateFn r (visitedIn inst order))
        { (mutateFn r inst secret).secret with CreationTimestamp := ts } =
        mutateFn r (visitedIn inst order)
          { (mutateFn r inst secret).secret with CreationTimestamp := ts } := by
      simp [mutate, herr, hname, hns]
    simp only [CreateOrUpdate, hgerr, hfound, hmut, herr, hsem]
    simp

/-- The statement of C4 at a SopsSecret with two files, the second run visiting them in
the other order. -/
theorem mutateFn_idempotent_witness :
    (GoMap.keys twoFileSopsSecret.Spec.StringData).Nodup ∧
    (mutateFn sampleReconciler twoFileSopsSecret freshSecret).err = none ∧
    Secret.semanticDeepEqual
      { (mutateFn sampleReconciler twoFileSopsSecret freshSecret).secret with
        CreationTimestamp := 63929347100000000000 }
      (mutateFn sampleReconciler
        (visitedIn twoFileSopsSecret [("b.txt", "ciphertext-X"), ("a.txt", "ciphertext-X")])
        { (mutateFn sampleReconciler twoFileSopsSecret freshSecret).secret with
          CreationTimestamp := 63929347100000000000 }).secret = true :=
  ⟨by decide, by decide,
    (mutateFn_idempotent sampleReconciler twoFileSopsSecret freshSecret
      [("b.txt", "ciphertext-X"), ("a.txt", "ciphertext-X")] (List.Perm.swap _ _ _)
      (by decide) (by decide) 63929347100000000000).2.1⟩

/-- Claim C9 at a SopsSecret that sets labels and annotations in `Spec.Metadata` and carries none
of its own: `update` succeeds, and the Secret gets no label and no annotation, the values of
`Spec.Metadata` are not copied. -/
theorem update_drops_spec_metadata :
    sampleSopsSecret.Spec.Metadata.Labels = [("app", "db")] ∧
    sampleSopsSecret.Spec.Metadata.Annotations = [("note", "generated")] ∧
    (update sampleReconciler freshSecret sampleSopsSecret).err = none ∧
    (update sampleReconciler freshSecret sampleSopsSecret).secret.Labels = [] ∧
    (update sampleReconciler freshSecret sampleSopsSecret).secret.Annotations = [] := by
  decide

/-- Claim C5 as stated fails: on a first failure (no previous `LastUpdate`) with the status write
succeeding, the returned delay is two seconds, not one. -/
theorem manageError_first_not_one_second :
    sampleSopsSecret.Status.LastUpdate = 0 ∧
    (manageError sampleNow none sampleSopsSecret "decryption failed").result
      = { Requeue := true, RequeueAfter := 2000000000 } ∧
    (manageError sampleNow none sampleSopsSecret "decryption failed").result.RequeueAfter
      ≠ Second := by
  decide

/-- Claim C5, amended: on a failure whose status write succeeds, when the previous `LastUpdate` is
zero or the previous `Status` is "Success", `manageError` returns `Requeue = true` with
`RequeueAfter` equal to exactly two seconds (twice the one-second retry interval). -/
theorem manageError_first_delay (now : Int) (inst : SopsSecret) (issue : String)
    (h : inst.Status.LastUpdate = 0 ∨ inst.Status.Status = "Success") :
    (manageError now none inst issue).result.Requeue = true ∧
    (manageError now none inst issue).result.RequeueAfter = 2 * Second := by
  rw [manageError_first now inst issue h]
  refine ⟨rfl, ?_⟩
  show (2000000000 : Int) = 2 * Second
  decide

/-- The statement of C5, amended, at a SopsSecret that has never been reconciled. -/
theorem manageError_first_delay_witness :
    (manageError sampleNow none sampleSopsSecret "decryption failed").result.RequeueAfter
      = 2 * Second :=
  (manageError_first_delay sampleNow sampleSopsSecret "decryption failed"
    (Or.inl (by decide))).2

/-- Claim C6 as stated fails. With a previous `LastUpdate` six tenths of a second past a
whole second and a failure ten seconds later, the delay is 19.2 seconds: the previous time
is rounded to the nearest second, here upwards, while rounding down gives 21.2 seconds.
With a previous `LastUpdate` of 7 * 10^18 nanoseconds earlier, the doubling wraps and the
delay is negative, while the formula of the claim gives six hours. With a previous
`LastUpdate` of `2^53 + 1` nanoseconds later than `now`, the doubled interval is not a
`float64` and the delay is two nanoseconds off the formula of the claim. -/
theorem manageError_not_rounded_down :
    ((manageError (sampleNow + 10600000000) none
        (failedSopsSecret (sampleNow + 600000000)) "decryption failed").result.RequeueAfter
      = 19200000000 ∧
     min (2 * ((sampleNow + 10600000000) -
        ((sampleNow + 600000000) - (sampleNow + 600000000) % Second))) (6 * Hour)
      = 21200000000) ∧
    ((manageError sampleNow none
        (failedSopsSecret (sampleNow - 7000000000000000000)) "decryption failed").result.RequeueAfter
      = -4446744073709551616 ∧
     min (2 * (sampleNow -
        ((sampleNow - 7000000000000000000) - (sampleNow - 7000000000000000000) % Second)))
        (6 * Hour)
      = 21600000000000) ∧
    ((manageError (sampleNow - 9007199254740993) none
        (failedSopsSecret sampleNow) "decryption failed").result.RequeueAfter
      = -18014398509481984 ∧
     min (2 * ((sampleNow - 9007199254740993) - (sampleNow - sampleNow % Second))) (6 * Hour)
      = -18014398509481986) := by
  decide

/-- Claim C6, amended: on a failure at time `now` whose status write succeeds, with a
previous `LastUpdate` that is not zero and a previous `Status` other than "Success", when
the previous `LastUpdate` rounded to the nearest whole second (halves upwards) lies less
than `2^62` nanoseconds before `now` and less than `2^52` nanoseconds after it,
`manageError` returns `RequeueAfter = min(2 * (now - rounded previous LastUpdate), 6 hours)`;
for a previous `LastUpdate` on a whole second the rounding changes nothing, and a failure
ten seconds after it returns twenty seconds. -/
theorem manageError_doubling (now : Int) (inst : SopsSecret) (issue : String)
    (hprev : inst.Status.LastUpdate ≠ 0) (hstatus : inst.Status.Status ≠ "Success")
    (hlo : -(2 ^ 52) < now - Time.Round inst.Status.LastUpdate Second)
    (hhi : now - Time.Round inst.Status.LastUpdate Second < 2 ^ 62) :
    (manageError now none inst issue).result.Requeue = true ∧
    (manageError now none inst issue).result.RequeueAfter
      = min (2 * (now - Time.Round inst.Status.LastUpdate Second)) (6 * Hour) ∧
    (inst.Status.LastUpdate % Second = 0 →
      (manageError now none inst issue).result.RequeueAfter
        = min (2 * (now - inst.Status.LastUpdate)) (6 * Hour)) ∧
    (inst.Status.LastUpdate % Second = 0 → now = inst.Status.LastUpdate + 10 * Second →
      (manageError now none inst issue).result.RequeueAfter = 20 * Second) := by
  have hhi' : now - Time.Round inst.Status.LastUpdate Second < 4611686018427387904 := by
    have : (2 : Int) ^ 62 = 4611686018427387904 := by norm_num
    omega
  have hlo' : -4503599627370496 < now - Time.Round inst.Status.LastUpdate Second := by
    have : (2 : Int) ^ 52 = 4503599627370496 := by norm_num
    omega
  have hcap : (6 : Int) * Hour = 21600000000000 := by decide
  rw [manageError_later now inst issue hprev hstatus hlo' hhi', hcap]
  simp only [mathMin_eq_min]
  refine ⟨trivial, trivial, ?_, ?_⟩
  · intro hw
    rw [Time.Round_second_of_whole _ hw]
  · intro hw hnow
    rw [Time.Round_second_of_whole _ hw, hnow]
    unfold Second
    omega

/-- The statement of C6, amended, at a failure ten seconds after a failure on a whole
second. -/
theorem manageError_doubling_witness :
    (manageError (sampleNow + 10 * Second) none (failedSopsSecret sampleNow)
      "decryption failed").result.RequeueAfter = 20 * Second :=
  (manageError_doubling (sampleNow + 10 * Second) (failedSopsSecret sampleNow)
    "decryption failed" (by decide) (by decide) (by decide) (by decide)).2.2.2
    (by decide) (by decide)

/-- Claim C8 as stated fails: for an error whose message is empty, `manageError` writes the
status "Failure" with an empty reason. -/
theorem manageError_empty_reason :
    (manageError sampleNow none sampleSopsSecret "").status.Status = "Failure" ∧
    (manageError sampleNow none sampleSopsSecret "").status.Reason = "" ∧
    ¬ ((manageError sampleNow none sampleSopsSecret "").status.Status = "Failure" ↔
      (manageError sampleNow none sampleSopsSecret "").status.Reason ≠ "") := by
  decide

/-- Claim C8, amended: for every error whose message is not empty and every apply result, the
status assigned by `manageError` is "Failure" with the message as reason, the status
assigned by `manageSuccess` is "Success" with an empty reason, and both satisfy
`Status = "Failure"` exactly when `Reason` is not empty, whether or not the status write
succeeds. -/
theorem status_consistency (now : Int) (statusUpdateErr : Option String) (inst : SopsSecret)
    (issue : String) (result : OperationResult) (hissue : issue ≠ "") :
    (manageError now statusUpdateErr inst issue).status
      = { LastUpdate := now, Reason := issue, Status := "Failure" } ∧
    (manageSuccess now statusUpdateErr inst result).status
      = { LastUpdate := now, Reason := "", Status := "Success" } ∧
    ((manageError now statusUpdateErr inst issue).status.Status = "Failure" ↔
      (manageError now statusUpdateErr inst issue).status.Reason ≠ "") ∧
    ((manageSuccess now statusUpdateErr inst result).status.Status = "Failure" ↔
      (manageSuccess now statusUpdateErr inst result).status.Reason ≠ "") := by
  have h1 : (manageError now statusUpdateErr inst issue).status
      = { LastUpdate := now, Reason := issue, Status := "Failure" } := by
    cases statusUpdateErr <;> rfl
  have h2 : (manageSuccess now statusUpdateErr inst result).status
      = { LastUpdate := now, Reason := "", Status := "Success" } := by
    cases statusUpdateErr <;> rfl
  refine ⟨h1, h2, ?_, ?_⟩
  · rw [h1]
    simp [hissue]
  · rw [h2]
    simp

/-- The statement of C8, amended, at a decryption error. -/
theorem status_consistency_witness :
    (manageError sampleNow none sampleSopsSecret "decryption failed").status.Status = "Failure" ↔
      (manageError sampleNow none sampleSopsSecret "decryption failed").status.Reason ≠ "" :=
  (status_consistency sampleNow none sampleSopsSecret "decryption failed" .Created
    (by decide)).2.2.1

/-- Claim C10 as stated fails. With a previous `LastUpdate` 7 * 10^18 nanoseconds (about 222
years) before `now`, the doubled interval wraps in `int64` and the delay is negative; with a
previous `LastUpdate` a tenth of a second before `now` and past the half second, rounding
puts it after `now` and the delay is negative too. -/
theorem manageError_negative_delay :
    (sampleNow - 7000000000000000000 ≤ sampleNow ∧
     (manageError sampleNow none
        (failedSopsSecret (sampleNow - 7000000000000000000)) "decryption failed").result.RequeueAfter
      < 0) ∧
    (sampleNow + 600000000 ≤ sampleNow + 700000000 ∧
     (manageError (sampleNow + 700000000) none
        (failedSopsSecret (sampleNow + 600000000)) "decryption failed").result.RequeueAfter
      < 0) := by
  decide

/-- Claim C10, amended: for every failed reconcile, whether or not the status write succeeds,
the delay returned by `manageError` is at most six hours; it is also non-negative when the
status write fails (it is then one second), when the failure is a first failure or follows a
success, or when the previous `LastUpdate` rounded to the nearest whole second is not later
than `now` and less than `2^62` nanoseconds before it. -/
theorem manageError_delay_range (now : Int) (statusUpdateErr : Option String)
    (inst : SopsSecret) (issue : String) :
    (manageError now statusUpdateErr inst issue).result.RequeueAfter ≤ 6 * Hour ∧
    (statusUpdateErr ≠ none →
      (manageError now statusUpdateErr inst issue).result.RequeueAfter = Second) ∧
    ((statusUpdateErr ≠ none ∨ inst.Status.LastUpdate = 0 ∨ inst.Status.Status = "Success" ∨
        (Time.Round inst.Status.LastUpdate Second ≤ now ∧
          now - Time.Round inst.Status.LastUpdate Second < 2 ^ 62)) →
      0 ≤ (manageError now statusUpdateErr inst issue).result.RequeueAfter) := by
  have hcap : (6 : Int) * Hour = 21600000000000 := by decide
  refine ⟨by rw [hcap]; exact manageError_le_cap now statusUpdateErr inst issue, ?_, ?_⟩
  · intro hw
    cases statusUpdateErr with
    | some e => rw [manageError_of_write_error]
    | none => exact absurd rfl hw
  · intro h
    cases statusUpdateErr with
    | some e =>
      rw [manageError_of_write_error]
      show 0 ≤ Second
      decide
    | none =>
      by_cases hfirst : inst.Status.LastUpdate = 0 ∨ inst.Status.Status = "Success"
      · rw [manageError_first now inst issue hfirst]
        show (0 : Int) ≤ 2000000000
        decide
      · have hprev : inst.Status.LastUpdate ≠ 0 := fun h0 => hfirst (Or.inl h0)
        have hstatus : inst.Status.Status ≠ "Success" := fun h0 => hfirst (Or.inr h0)
        have hrange : Time.Round inst.Status.LastUpdate Second ≤ now ∧
            now - Time.Round inst.Status.LastUpdate Second < 2 ^ 62 := by
          rcases h with h | h | h | h
          · exact absurd rfl h
          · exact absurd h hprev
          · exact absurd h hstatus
          · exact h
        have hhi : now - Time.Round inst.Status.LastUpdate Second < 4611686018427387904 := by
          have : (2 : Int) ^ 62 = 4611686018427387904 := by norm_num
          omega
        rw [manageError_later now inst issue hprev hstatus (by omega) hhi]
        simp only [mathMin]
        split <;> omega

/-- The statement of C10, amended, at a failure ten seconds after a failure, and at the same
failure with a status write that fails. -/
theorem manageError_delay_range_witness :
    (0 ≤ (manageError (sampleNow + 10 * Second) none (failedSopsSecret sampleNow)
        "decryption failed").result.RequeueAfter ∧
      (manageError (sampleNow + 10 * Second) none (failedSopsSecret sampleNow)
        "decryption failed").result.RequeueAfter ≤ 6 * Hour) ∧
    (manageError (sampleNow + 10 * Second) (some "conflict") (failedSopsSecret sampleNow)
      "decryption failed").result.RequeueAfter = Second :=
  ⟨⟨(manageError_delay_range (sampleNow + 10 * Second) none (failedSopsSecret sampleNow)
      "decryption failed").2.2 (Or.inr (Or.inr (Or.inr (by decide)))),
    (manageError_delay_range (sampleNow + 10 * Second) none (failedSopsSecret sampleNow)
      "decryption failed").1⟩,
   (manageError_delay_range (sampleNow + 10 * Second) (some "conflict")
      (failedSopsSecret sampleNow) "decryption failed").2.1 (by decide)⟩

/-- Claim C7 as stated fails: three consecutive failures at strictly increasing times, the
second a hundred seconds after the first and the third one second after the second, get the
delays 2 s, 200 s, 2 s; and a second failure 7 * 10^18 nanoseconds after the first gets a
negative delay after the 2 s of the first. -/
theorem failureDelays_not_monotone :
    (sampleNow < sampleNow + 100000000000 ∧
     sampleNow + 100000000000 < sampleNow + 101000000000 ∧
     failureDelays sampleSopsSecret
        [sampleNow, sampleNow + 100000000000, sampleNow + 101000000000]
      = [2000000000, 200000000000, 2000000000] ∧
     ¬ List.Sorted (fun a b => a ≤ b)
      (failureDelays sampleSopsSecret
        [sampleNow, sampleNow + 100000000000, sampleNow + 101000000000])) ∧
    (sampleNow < sampleNow + 7000000000000000000 ∧
     failureDelays sampleSopsSecret [sampleNow, sampleNow + 7000000000000000000]
      = [2000000000, -4446744073709551616]) := by
  decide

/-- Claim C7, amended: in a run of consecutive failed reconciles that starts with a first failure
or a failure after a success, at times after the zero time, where each failure after the
first comes no sooner than the delay returned by the one before asked for and less than
`2^62 - 10^9` nanoseconds after it (each status write succeeding, each reconcile seeing the
status stored by the one before), the delays returned by `manageError` are non-decreasing,
and none exceeds six hours. -/
theorem failureDelays_monotone (inst : SopsSecret) (times : List Int)
    (hfirst : inst.Status.LastUpdate = 0 ∨ inst.Status.Status = "Success")
    (hpos : ∀ t ∈ times, 0 < t) (hretry : retriedAfterDelay inst times = true) :
    List.Sorted (fun a b => a ≤ b) (failureDelays inst times) ∧
    ∀ d ∈ failureDelays inst times, d ≤ 6 * Hour := by
  constructor
  · have hchain := failureDelays_chain times inst
      (by
        intro t rest _
        rw [manageError_first t inst "error" hfirst]
        show Second ≤ 2000000000
        decide)
      hpos hretry
    exact List.chain'_iff_pairwise.1 hchain
  · have hcap : (6 : Int) * Hour = 21600000000000 := by decide
    rw [hcap]
    clear hretry hpos hfirst
    induction times generalizing inst with
    | nil => intro d hd; simp [failureDelays] at hd
    | cons t rest ih =>
      intro d hd
      simp only [failureDelays, List.mem_cons] at hd
      rcases hd with hd | hd
      · rw [hd]
        exact manageError_le_cap t none inst "error"
      · exact ih _ d hd

/-- The statement of C7, amended, at a run of four failures, each retried when its delay has
passed or later. -/
theorem failureDelays_monotone_witness :
    retriedAfterDelay sampleSopsSecret
      [sampleNow, sampleNow + 2000000000, sampleNow + 6000000000, sampleNow + 20000000000]
      = true ∧
    failureDelays sampleSopsSecret
      [sampleNow, sampleNow + 2000000000, sampleNow + 6000000000, sampleNow + 20000000000]
      = [2000000000, 4000000000, 8000000000, 28000000000] ∧
    List.Sorted (fun a b => a ≤ b) (failureDelays sampleSopsSecret
      [sampleNow, sampleNow + 2000000000, sampleNow + 6000000000, sampleNow + 20000000000]) :=
  ⟨by decide, by decide,
    (failureDelays_monotone sampleSopsSecret
      [sampleNow, sampleNow + 2000000000, sampleNow + 6000000000, sampleNow + 20000000000]
      (Or.inl (by decide)) (by decide) (by decide)).1⟩

end SopsOperator
